import Mathlib

/-!
# Trivia plugin: command validation and dispatch

A shallow embedding of `server/command.go` of the Mattermost trivia plugin:
the tokenizer (`strings.Fields`), the validator (`validateCommand`), the
handlers and the dispatcher (`ExecuteCommand`), with the platform calls
(`p.API.*`) made explicit as a trace of events over a key-value store.

Go strings are modelled as Lean strings (sequences of Unicode characters).
-/

set_option autoImplicit false

namespace Trivia

/-! ## The string library functions the code calls -/

/-- Go `unicode.IsSpace`: the white-space characters `strings.Fields` and
`strings.TrimSpace` recognise. -/
def isSpace (c : Char) : Bool :=
  c = '\t' || c = '\n' || c = '\x0b' || c = '\x0c' || c = '\r' || c = ' ' ||
  c.val = 0x85 || c.val = 0xA0 || c.val = 0x1680 ||
  (0x2000 ≤ c.val && c.val ≤ 0x200a) ||
  c.val = 0x2028 || c.val = 0x2029 || c.val = 0x202f || c.val = 0x205f ||
  c.val = 0x3000

/-- The scan of `strings.Fields`: `cur` holds the characters of the field
being read, most recent first. -/
def fieldsAux : List Char → List Char → List String
  | cur, [] => if cur.isEmpty then [] else [String.mk cur.reverse]
  | cur, c :: cs =>
    if isSpace c then
      (if cur.isEmpty then fieldsAux [] cs
       else String.mk cur.reverse :: fieldsAux [] cs)
    else fieldsAux (c :: cur) cs

/-- Go `strings.Fields`: the maximal runs of non-space characters, in order. -/
def Fields (s : String) : List String :=
  fieldsAux [] s.data

/-- Go `strings.TrimSpace`: drops leading and trailing white space. -/
def TrimSpace (s : String) : String :=
  String.mk (((s.data.dropWhile isSpace).reverse.dropWhile isSpace).reverse)

/-- The scan of `strings.SplitN` for a non-empty separator: `cuts` is the
number of cuts still allowed, `skip` the number of characters of a matched
separator still to be passed over, `cur` the current piece, most recent
character first. -/
def genSplit (sep : List Char) : Nat → Nat → List Char → List Char → List String
  | _, _, cur, [] => [String.mk cur.reverse]
  | cuts, skip + 1, cur, _ :: cs => genSplit sep cuts skip cur cs
  | 0, 0, cur, c :: cs => genSplit sep 0 0 (c :: cur) cs
  | cuts + 1, 0, cur, c :: cs =>
    if sep.isPrefixOf (c :: cs) then
      String.mk cur.reverse :: genSplit sep cuts (sep.length - 1) [] cs
    else genSplit sep (cuts + 1) 0 (c :: cur) cs

/-- Go `strings.SplitN(s, sep, n)` for `n ≥ 0`: at most `n` pieces, the last
one the unsplit remainder; `n = 0` gives no piece. An empty separator cuts
after every character. -/
def SplitN (s sep : String) (n : Nat) : List String :=
  match n with
  | 0 => []
  | k + 1 =>
    if sep.data.isEmpty then
      (s.data.take k).map (fun c => String.mk [c]) ++
        (if (s.data.drop k).isEmpty then [] else [String.mk (s.data.drop k)])
    else genSplit sep.data k 0 [] s.data

/-- Go `strings.Split(s, sep)`: `SplitN` without a limit on the pieces. -/
def Split (s sep : String) : List String :=
  if sep.data.isEmpty then s.data.map (fun c => String.mk [c])
  else genSplit sep.data s.data.length 0 [] s.data

/-- The scan of `strings.ReplaceAll` for a non-empty `old`. -/
def replaceAux (old new : List Char) : Nat → List Char → List Char
  | _, [] => []
  | skip + 1, _ :: cs => replaceAux old new skip cs
  | 0, c :: cs =>
    if old.isPrefixOf (c :: cs) then new ++ replaceAux old new (old.length - 1) cs
    else c :: replaceAux old new 0 cs

/-- Go `strings.ReplaceAll(s, old, new)`: every non-overlapping occurrence of
`old`, left to right; an empty `old` matches before every character and at
the end. -/
def ReplaceAll (s old new : String) : String :=
  if old.data.isEmpty then
    String.mk (s.data.foldr (fun c acc => new.data ++ c :: acc) new.data)
  else String.mk (replaceAux old.data new.data 0 s.data)

/-- Go `strings.Contains(s, substr)`. -/
def Contains (s substr : String) : Bool :=
  s.data.tails.any (fun t => substr.data.isPrefixOf t)

/-! ## `fmt.Sprintf` on string operands -/

/-- The operands left over after the format: `%!(EXTRA string=a, string=b)`. -/
def extraArgs : List String → List Char
  | [] => []
  | a :: as =>
    "%!(EXTRA ".data ++
      (String.intercalate ", " ((a :: as).map (fun x => "string=" ++ x))).data ++ [')']

/-- The scan of `fmt.Sprintf` over the format. The fragment modelled is the
one the formats of `command.go` use: literal text, `%%`, and a verb that
follows its `%` directly (no flag, width, precision or argument index),
applied to string operands (an error operand is its `Error()` text). `%s` and
`%v` print the operand, a verb with no operand left prints `%!c(MISSING)`, a
`%` that ends the format prints `%!(NOVERB)`, and operands left over are
reported by `extraArgs`. A verb other than `s` and `v` with an operand is
rendered in the bad-verb form `%!c(string=operand)`, which is what Go prints
for the verbs that do not apply to strings; no format of `command.go` has
one. Outside the fragment the scan differs from Go: Go reads flags (`#`, `0`,
`+`, `-`, blank), a width, a precision and an argument index (`[n]`, `*`)
between the `%` and the verb, and the scan takes the character after the `%`
as the verb. The constant formats of `command.go` are inside the fragment;
the text `executeCommandList` passes as a format is inside it when every `%`
in it ends the text or is followed by a character that is none of those. -/
def sprintfAux : List Char → List String → List Char
  | [], args => extraArgs args
  | '%' :: [], _ => "%!(NOVERB)".data
  | '%' :: '%' :: fs, args => '%' :: sprintfAux fs args
  | '%' :: c :: fs, [] => "%!".data ++ c :: "(MISSING)".data ++ sprintfAux fs []
  | '%' :: c :: fs, a :: as =>
    if c = 's' || c = 'v' then a.data ++ sprintfAux fs as
    else "%!".data ++ c :: "(string=".data ++ a.data ++ ')' :: sprintfAux fs as
  | f :: fs, args => f :: sprintfAux fs args

/-- Go `fmt.Sprintf(format, args...)` on the fragment of `sprintfAux`. -/
def Sprintf (format : String) (args : List String) : String :=
  String.mk (sprintfAux format.data args)

/-! ## Constants of `command.go` -/

def commandTriggerCreate : String := "create"
def commandTriggerListQuizes : String := "list_quizes"
def commandTriggerListQuestions : String := "list_questions"
def commandTriggerAddQuestion : String := "add_question"
def commandTriggerDeleteQuiz : String := "delete_quiz"
def commandTriggerDeleteQuestion : String := "delete_question"
def commandTriggerStart : String := "start"
def welcomebotChannelWelcomeKey : String := ""

/-- The method `validateCommand`: the rejection text for `action` with
`parameters`, the empty string when there is none. -/
def validateCommand (action : String) (parameters : List String) : String :=
  if action = commandTriggerCreate then
    (if parameters.length ≠ 2 then
      "Please specify a channel and quiz name (one word, dashes allowed)."
     else "")
  else if action = commandTriggerListQuizes then
    (if parameters.length > 0 then
      "List command does not accept any extra parameters"
     else "")
  else if action = commandTriggerListQuestions then
    (if parameters.length ≠ 1 then
      "`You need to provide the quiz name (one word, dashes allowed)"
     else "")
  else if action = commandTriggerAddQuestion then
    (if parameters.length < 2 then
      "`You need to provide the quiz name, the question and the answer. Split the answer and the question with a |"
     else "")
  else if action = commandTriggerDeleteQuestion then
    (if parameters.length < 2 then
      "You need to provide the quiz name and the question"
     else "")
  else if action = commandTriggerStart then
    (if parameters.length ≠ 1 then
      "This function requires the quiz name"
     else "")
  else ""

/-- The constant `commandHelp`. -/
def commandHelp : String :=
  "* |/trivia create [quiz-name] [channel-name] | - Creates a Trivia Quiz for a specific channel.\n" ++
  "* |/trivia list_quizes| - Lists the quizes that you have created\n" ++
  "* |/trivia list_questions| - Lists the questions and answers that you have created for a specific quiz\n" ++
  "* |/trivia add_question [quiz-name] [question * answer]| - Add a question and the answer to a a specific quiz.\n" ++
  "* |/trivia delete_quiz [quiz-name]| - Deletes a specific quiz or all your quizes if you type *all* as quizname\n" ++
  "* |/trivia delete_question [quiz-name] [question * answer] | Deletes a specific question \n" ++
  "* |/trivia start [quizname] | Starts a specific quiz \n" ++
  "\n"

/-! ## Data model and platform -/

/-- The fields of `model.CommandArgs` the code reads. -/
structure CommandArgs where
  Command : String
  ChannelId : String
  UserId : String
  deriving DecidableEq, Repr

/-- The fields of `model.Post` the code writes. -/
structure Post where
  UserId : String
  ChannelId : String
  Message : String
  deriving DecidableEq, Repr

/-- The field of `model.Channel` the code reads (`Type` in Go). -/
structure Channel where
  ChannelType : String
  deriving DecidableEq, Repr

/-- The constant `model.ChannelTypeDirect`. -/
def ChannelTypeDirect : String := "D"

/-- A configured welcome message; the code reads its `TeamName` only. The
type is declared outside `command.go` and `plugin.go`. -/
structure ConfigMessage where
  TeamName : String
  deriving DecidableEq, Repr

/-- One call the plugin makes: the platform calls of `p.API` and the two
helper methods whose bodies are not in `command.go` or `plugin.go`. -/
inductive Event where
  | SendEphemeralPost (userId : String) (post : Post)
  | GetChannel (channelId : String)
  | KVGet (key : String)
  | KVSet (key : String) (value : String)
  | KVDelete (key : String)
  | getWelcomeMessages
  | previewWelcomeMessage (teamName : String) (message : ConfigMessage)
  deriving DecidableEq, Repr

/-- The state the handlers act on: the key-value store of the platform and
the calls made so far, oldest first. -/
structure World where
  store : List (String × String)
  trace : List Event
  deriving DecidableEq, Repr

/-- The plugin value `p`: its bot account, the answers of the platform (each
may depend on the calls made so far), and the two helper methods that are
called by `command.go` and defined elsewhere: `getWelcomeMessages` (the
configured entries) and `previewWelcomeMessage` (its error, if any; the trace
records the call, and what the method does besides is not part of this
model). An error is represented by its text. -/
structure Plugin where
  botUserID : String
  GetChannel : List Event → String → Except String Channel
  KVGetErr : List Event → String → Option String
  KVSetErr : List Event → String → String → Option String
  KVDeleteErr : List Event → String → Option String
  getWelcomeMessages : List ConfigMessage
  previewWelcomeMessage : List Event → String → CommandArgs → ConfigMessage → Option String

/-- How a call ends: a normal return, or a run-time panic. -/
inductive Outcome where
  | returned
  | panicked (msg : String)
  deriving DecidableEq, Repr

/-- Records one call in the trace. -/
def World.log (w : World) (e : Event) : World :=
  { w with trace := w.trace ++ [e] }

/-- The value stored under `key`, if any. -/
def storeGet (store : List (String × String)) (key : String) : Option String :=
  store.lookup key

/-- The store with `key` removed. -/
def storeDelete (store : List (String × String)) (key : String) : List (String × String) :=
  store.filter (fun kv => kv.1 ≠ key)

/-- The store with `key` bound to `value`, overwriting. -/
def storeSet (store : List (String × String)) (key value : String) : List (String × String) :=
  (key, value) :: storeDelete store key

/-- The call `p.API.KVGet(key)`: the error of the platform, or the stored value. -/
def KVGet (p : Plugin) (key : String) (w : World) : Except String (Option String) × World :=
  match p.KVGetErr w.trace key with
  | some appErr => (.error appErr, w.log (.KVGet key))
  | none => (.ok (storeGet w.store key), w.log (.KVGet key))

/-- The call `p.API.KVSet(key, value)`. -/
def KVSet (p : Plugin) (key value : String) (w : World) : Option String × World :=
  match p.KVSetErr w.trace key value with
  | some appErr => (some appErr, w.log (.KVSet key value))
  | none => (none, { (w.log (.KVSet key value)) with store := storeSet w.store key value })

/-- The call `p.API.KVDelete(key)`. -/
def KVDelete (p : Plugin) (key : String) (w : World) : Option String × World :=
  match p.KVDeleteErr w.trace key with
  | some appErr => (some appErr, w.log (.KVDelete key))
  | none => (none, { (w.log (.KVDelete key)) with store := storeDelete w.store key })

/-! ## The handlers of `command.go` -/

/-- The method `postCommandResponse`: formats `text` with `textArgs` and sends
it as an ephemeral post of the bot; the result of the send is discarded. -/
def postCommandResponse (p : Plugin) (args : CommandArgs) (text : String)
    (textArgs : List String) (w : World) : World :=
  w.log (.SendEphemeralPost args.UserId
    { UserId := p.botUserID, ChannelId := args.ChannelId, Message := Sprintf text textArgs })

/-- The inner loop of `executeCommandPreview` over the comma-separated names
of one entry. The result is `none` when the handler returned from inside the
loop, and the value of `found` otherwise. -/
def previewNames (p : Plugin) (teamName : String) (args : CommandArgs)
    (message : ConfigMessage) : List String → Bool → World → Option Bool × World
  | [], found, w => (some found, w)
  | name :: rest, found, w =>
    if TrimSpace name = teamName then
      let w1 := postCommandResponse p args "%s" [teamName] w
      let w2 := w1.log (.previewWelcomeMessage teamName message)
      match p.previewWelcomeMessage w1.trace teamName args message with
      | some err =>
        (none, postCommandResponse p args
          "error occurred while processing greeting for team `%s`: `%s`" [teamName, err] w2)
      | none => previewNames p teamName args message rest true w2
    else previewNames p teamName args message rest found w

/-- The outer loop of `executeCommandPreview` over the entries. -/
def previewMessages (p : Plugin) (teamName : String) (args : CommandArgs) :
    List ConfigMessage → Bool → World → Option Bool × World
  | [], found, w => (some found, w)
  | message :: rest, found, w =>
    match previewNames p teamName args message (Split message.TeamName ",") found w with
    | (none, w1) => (none, w1)
    | (some found1, w1) => previewMessages p teamName args rest found1 w1

/-- The method `executeCommandPreview`. -/
def executeCommandPreview (p : Plugin) (teamName : String) (args : CommandArgs)
    (w : World) : World :=
  match previewMessages p teamName args p.getWelcomeMessages false
      (w.log .getWelcomeMessages) with
  | (none, w1) => w1
  | (some found, w1) =>
    if !found then postCommandResponse p args "team `%s` has not been found" [teamName] w1
    else w1

/-- The method `executeCommandList`. The Go code collects the names in a map
and ranges over it, in an order the language leaves open; the model lists
each distinct name once, in one fixed order, so with two or more distinct
names it gives one of the texts the code can post. -/
def executeCommandList (p : Plugin) (args : CommandArgs) (w : World) : World :=
  let wecomeMessages := p.getWelcomeMessages
  let w1 := w.log .getWelcomeMessages
  if wecomeMessages.length = 0 then
    postCommandResponse p args "There are no welcome messages defined" [] w1
  else
    let teams := (wecomeMessages.map (fun message => message.TeamName)).dedup
    let str := teams.foldl (fun str team => str ++ Sprintf "\n * %s" [team])
      "Teams for which welcome messages are defined:"
    postCommandResponse p args str [] w1

/-- The method `executeCommandSetWelcome`. -/
def executeCommandSetWelcome (p : Plugin) (args : CommandArgs) (w : World) :
    Outcome × World :=
  let w1 := w.log (.GetChannel args.ChannelId)
  match p.GetChannel w.trace args.ChannelId with
  | .error appErr =>
    (.returned, postCommandResponse p args
      "error occurred while checking the type of the chanelId `%s`: `%s`"
      [args.ChannelId, appErr] w1)
  | .ok channelInfo =>
    if channelInfo.ChannelType = ChannelTypeDirect then
      (.returned, postCommandResponse p args
        "welcome messages are not supported for direct channels" [] w1)
    else
      match (SplitN args.Command "set_channel_welcome" 2)[1]? with
      | none =>
        (.panicked ("index out of range [1] with length " ++
          toString (SplitN args.Command "set_channel_welcome" 2).length), w1)
      | some message =>
        let message := TrimSpace message
        let key := Sprintf "%s%s" [welcomebotChannelWelcomeKey, args.ChannelId]
        match KVSet p key message w1 with
        | (some appErr, w2) =>
          (.returned, postCommandResponse p args
            "error occurred while storing the welcome message for the chanel: `%s`"
            [appErr] w2)
        | (none, w2) =>
          (.returned, postCommandResponse p args "stored the welcome message:\n%s" [message] w2)

/-- The method `executeCommandGetWelcome`. -/
def executeCommandGetWelcome (p : Plugin) (args : CommandArgs) (w : World) : World :=
  let key := Sprintf "%s%s" [welcomebotChannelWelcomeKey, args.ChannelId]
  match KVGet p key w with
  | (.error appErr, w1) =>
    postCommandResponse p args
      "error occurred while retrieving the welcome message for the chanel: `%s`" [appErr] w1
  | (.ok none, w1) => postCommandResponse p args "welcome message has not been set yet" [] w1
  | (.ok (some data), w1) => postCommandResponse p args "Welcome message is:\n%s" [data] w1

/-- The method `executeCommandDeleteWelcome`. -/
def executeCommandDeleteWelcome (p : Plugin) (args : CommandArgs) (w : World) : World :=
  let key := Sprintf "%s%s" [welcomebotChannelWelcomeKey, args.ChannelId]
  match KVGet p key w with
  | (.error appErr, w1) =>
    postCommandResponse p args
      "error occurred while retrieving the welcome message for the chanel: `%s`" [appErr] w1
  | (.ok none, w1) => postCommandResponse p args "welcome message has not been set yet" [] w1
  | (.ok (some _), w1) =>
    match KVDelete p key w1 with
    | (some appErr, w2) =>
      postCommandResponse p args
        "error occurred while deleting the welcome message for the chanel: `%s`" [appErr] w2
    | (none, w2) => postCommandResponse p args "welcome message has been deleted" [] w2

/-- The text `ExecuteCommand` posts for the empty action. -/
def helpText : String :=
  "###### Trivia Plugin - Slash Command Help\n" ++ ReplaceAll commandHelp "|" "`"

/-- The method `ExecuteCommand`: the outcome of the call and the world it
leaves. Every normal return gives the empty `model.CommandResponse` and no
error, so the outcome carries no value. -/
def ExecuteCommand (p : Plugin) (args : CommandArgs) (w : World) : Outcome × World :=
  let split := Fields args.Command
  match split with
  | [] => (.panicked "index out of range [0] with length 0", w)
  | command :: _ =>
    let action := if split.length > 1 then split.getD 1 "" else ""
    let parameters := if split.length > 2 then split.drop 2 else []
    if command ≠ "/trivia" then (.returned, w)
    else if validateCommand action parameters ≠ "" then
      (.returned, postCommandResponse p args (validateCommand action parameters) [] w)
    else if action = commandTriggerCreate then
      match parameters with
      | [] => (.panicked "index out of range [0] with length 0", w)
      | teamName :: _ => (.returned, executeCommandPreview p teamName args w)
    else if action = commandTriggerListQuizes then
      (.returned, executeCommandList p args w)
    else if action = commandTriggerListQuestions then
      executeCommandSetWelcome p args w
    else if action = commandTriggerAddQuestion then
      (.returned, executeCommandGetWelcome p args w)
    else if action = commandTriggerDeleteQuestion then
      (.returned, executeCommandDeleteWelcome p args w)
    else if action = commandTriggerStart then
      (.returned, executeCommandDeleteWelcome p args w)
    else if action = "" then
      (.returned, postCommandResponse p args helpText [] w)
    else
      (.returned, postCommandResponse p args "Unknown action %v" [action] w)

/-- A platform on which every call succeeds, with `entries` configured. -/
def quietPlugin (entries : List ConfigMessage) : Plugin where
  botUserID := "bot"
  GetChannel := fun _ _ => .ok { ChannelType := "O" }
  KVGetErr := fun _ _ => none
  KVSetErr := fun _ _ _ => none
  KVDeleteErr := fun _ _ => none
  getWelcomeMessages := entries
  previewWelcomeMessage := fun _ _ _ _ => none

/-- The actions `validateCommand` and `ExecuteCommand` have a case for. -/
def routedActions : List String :=
  [commandTriggerCreate, commandTriggerListQuizes, commandTriggerListQuestions,
   commandTriggerAddQuestion, commandTriggerDeleteQuestion, commandTriggerStart]

/-- The commands the help text and the constants of `command.go` name. -/
def registry : List String :=
  [commandTriggerCreate, commandTriggerListQuizes, commandTriggerListQuestions,
   commandTriggerAddQuestion, commandTriggerDeleteQuiz, commandTriggerDeleteQuestion,
   commandTriggerStart]

/-- The response `postCommandResponse` sends to the user of `args` with
message `msg`. -/
def response (p : Plugin) (args : CommandArgs) (msg : String) : Event :=
  .SendEphemeralPost args.UserId
    { UserId := p.botUserID, ChannelId := args.ChannelId, Message := msg }

/-- The calls made between the world `w` and a later world `w1`. -/
def newEvents (w w1 : World) : List Event :=
  w1.trace.drop w.trace.length

/-- The entry a `previewWelcomeMessage` call processes. -/
def Event.previewed : Event → Option ConfigMessage
  | .previewWelcomeMessage _ message => some message
  | _ => none

/-- The message of a post. -/
def Event.message : Event → Option String
  | .SendEphemeralPost _ post => some post.Message
  | _ => none

/-- The entries processed by `previewWelcomeMessage` in a run of calls, in
order. -/
def processedEntries (es : List Event) : List ConfigMessage :=
  es.filterMap Event.previewed

/-- The messages posted in a run of calls, in order. -/
def responses (es : List Event) : List String :=
  es.filterMap Event.message

/-- An entry matches `teamName` when one of the parts of its `TeamName`, split
on commas and trimmed, equals `teamName`. -/
def entryMatches (teamName : String) (message : ConfigMessage) : Bool :=
  (Split message.TeamName ",").any (fun name => decide (TrimSpace name = teamName))

/-- The calls of the preview loop on the parts `names` of one entry when no
rendering fails: a post of the name and a rendering per matching part. -/
def matchEvents (p : Plugin) (args : CommandArgs) (teamName : String)
    (message : ConfigMessage) : List String → List Event
  | [] => []
  | name :: rest =>
    if TrimSpace name = teamName then
      response p args teamName :: .previewWelcomeMessage teamName message ::
        matchEvents p args teamName message rest
    else matchEvents p args teamName message rest

/-- The calls of the preview loop over the entries when no rendering fails. -/
def scanEvents (p : Plugin) (args : CommandArgs) (teamName : String) :
    List ConfigMessage → List Event
  | [] => []
  | message :: rest =>
    matchEvents p args teamName message (Split message.TeamName ",") ++
      scanEvents p args teamName rest

/-- One comma-separated part of a `TeamName` as the claim reads it: a name
between two runs of white space. -/
structure NamePart where
  before : List Char
  name : List Char
  after : List Char
  deriving DecidableEq, Repr

/-- The characters of a part. -/
def NamePart.text (x : NamePart) : List Char :=
  x.before ++ (x.name ++ x.after)

/-- A part is well formed when the text around the name is white space and the
name holds no comma and neither starts nor ends with white space. -/
def NamePart.wellFormed (x : NamePart) : Prop :=
  (∀ c ∈ x.before, isSpace c = true) ∧ (∀ c ∈ x.after, isSpace c = true) ∧
  ',' ∉ x.name ∧ (∀ c, x.name.head? = some c → isSpace c = false) ∧
  (∀ c, x.name.getLast? = some c → isSpace c = false)

/-- The pieces written one after the other with a comma between two of them. -/
def joinComma : List (List Char) → List Char
  | [] => []
  | [x] => x
  | x :: y :: rest => x ++ ',' :: joinComma (y :: rest)

/-- The `TeamName` written from its parts. -/
def teamNameOf (parts : List NamePart) : String :=
  String.mk (joinComma (parts.map NamePart.text))

/-- The number of parts of the entry that equal `teamName` once split on
commas and trimmed. -/
def matchCount (teamName : String) (message : ConfigMessage) : Nat :=
  (((Split message.TeamName ",").map TrimSpace).filter
    (fun name => decide (name = teamName))).length

/-- The entries in order, each as many times as it has matching parts. -/
def expectedProcessed (teamName : String) : List ConfigMessage → List ConfigMessage
  | [] => []
  | message :: rest =>
    List.replicate (matchCount teamName message) message ++ expectedProcessed teamName rest

/-- The number of matching parts over all entries. -/
def totalMatches (teamName : String) : List ConfigMessage → Nat
  | [] => 0
  | message :: rest => matchCount teamName message + totalMatches teamName rest

/-- Entries with padded names, several commas, a repeated name and a repeated
entry. -/
def paddedEntries : List ConfigMessage :=
  [{ TeamName := " teamA ,\tteamB , teamC" }, { TeamName := "teamD" },
   { TeamName := "teamC,teamA, teamC " }, { TeamName := "teamD" }]

/-- The two entries of the preview scenario. -/
def scenarioEntries : List ConfigMessage :=
  [{ TeamName := "teamA,teamB" }, { TeamName := "teamC" }]

/-! ## Formatting lemmas -/

theorem Sprintf_validateCommand (action : String) (ps : List String) :
    Sprintf (validateCommand action ps) [] = validateCommand action ps := by
  unfold validateCommand
  split_ifs <;> decide

theorem Sprintf_key (channelId : String) :
    Sprintf "%s%s" [welcomebotChannelWelcomeKey, channelId] = channelId := by
  have h : sprintfAux "%s%s".data [welcomebotChannelWelcomeKey, channelId]
      = channelId.data ++ [] := rfl
  simp [Sprintf, h]

theorem Sprintf_unknown_action (action : String) :
    Sprintf "Unknown action %v" [action] = "Unknown action " ++ action := by
  have h : sprintfAux "Unknown action %v".data [action]
      = "Unknown action ".data ++ (action.data ++ []) := rfl
  rw [Sprintf, h, List.append_nil]
  rfl

theorem fieldsAux_spaces (l rest : List Char) (hl : ∀ c ∈ l, isSpace c = true) :
    fieldsAux [] (l ++ rest) = fieldsAux [] rest := by
  induction l with
  | nil => rfl
  | cons c cs ih =>
    have hc : isSpace c = true := hl c (List.mem_cons_self _ _)
    have hcs : ∀ d ∈ cs, isSpace d = true := fun d hd => hl d (List.mem_cons_of_mem _ hd)
    simp [fieldsAux, hc, ih hcs]

/-- The line `/trivia` between any two runs of white space has the one token
`/trivia`. -/
theorem Fields_trivia_padded (l r : List Char) (hl : ∀ c ∈ l, isSpace c = true)
    (hr : ∀ c ∈ r, isSpace c = true) :
    Fields (String.mk (l ++ ("/trivia".data ++ r))) = ["/trivia"] := by
  have hword : ∀ rest, fieldsAux [] ("/trivia".data ++ rest) =
      fieldsAux ['a', 'i', 'v', 'i', 'r', 't', '/'] rest := fun _ => rfl
  rw [Fields, fieldsAux_spaces l _ hl, hword]
  cases r with
  | nil => rfl
  | cons c cs =>
    have hc : isSpace c = true := hr c (List.mem_cons_self _ _)
    have hcs : ∀ d ∈ cs, isSpace d = true := fun d hd => hr d (List.mem_cons_of_mem _ hd)
    have hnil := fieldsAux_spaces cs [] hcs
    rw [List.append_nil] at hnil
    have hend : fieldsAux [] ([] : List Char) = [] := rfl
    simp only [fieldsAux, hc, hnil, hend, if_true]
    rfl

theorem postCommandResponse_eq (p : Plugin) (args : CommandArgs) (text : String)
    (textArgs : List String) (w : World) :
    postCommandResponse p args text textArgs w =
      { store := w.store, trace := w.trace ++ [response p args (Sprintf text textArgs)] } := rfl

/-! ## The validator -/

theorem validateCommand_create (ps : List String) :
    validateCommand "create" ps = "" ↔ ps.length = 2 := by
  by_cases h : ps.length = 2 <;> simp [validateCommand, commandTriggerCreate, h]

theorem validateCommand_list_questions (ps : List String) :
    validateCommand "list_questions" ps = "" ↔ ps.length = 1 := by
  by_cases h : ps.length = 1 <;>
    simp [validateCommand, commandTriggerCreate, commandTriggerListQuizes,
      commandTriggerListQuestions, h]

theorem validateCommand_start (ps : List String) :
    validateCommand "start" ps = "" ↔ ps.length = 1 := by
  by_cases h : ps.length = 1 <;>
    simp [validateCommand, commandTriggerCreate, commandTriggerListQuizes,
      commandTriggerListQuestions, commandTriggerAddQuestion,
      commandTriggerDeleteQuestion, commandTriggerStart, h]

theorem validateCommand_unrouted (action : String) (ps : List String)
    (h : action ∉ routedActions) : validateCommand action ps = "" := by
  simp only [routedActions, List.mem_cons, List.mem_singleton, not_or,
    List.not_mem_nil, or_false] at h
  obtain ⟨h1, h2, h3, h4, h5, h6⟩ := h
  simp [validateCommand, h1, h2, h3, h4, h5, h6]

/-- C1: `validateCommand` implements the arity table. It returns the empty
string exactly when: `create` has 2 parameters, `list_questions` has 1,
`start` has 1, `add_question` has at least 2, `delete_question` has at least
2; it returns the empty string for `delete_quiz`, for the empty action and
for every action it has no case for; and the result depends on the action
and the number of parameters only. -/
theorem validateCommand_arity_table (ps : List String) :
    (validateCommand "create" ps = "" ↔ ps.length = 2) ∧
    (validateCommand "list_questions" ps = "" ↔ ps.length = 1) ∧
    (validateCommand "start" ps = "" ↔ ps.length = 1) ∧
    (validateCommand "add_question" ps = "" ↔ 2 ≤ ps.length) ∧
    (validateCommand "delete_question" ps = "" ↔ 2 ≤ ps.length) ∧
    validateCommand "delete_quiz" ps = "" ∧
    validateCommand "" ps = "" ∧
    (∀ action : String, action ∉ routedActions → validateCommand action ps = "") ∧
    (∀ (action : String) (qs : List String), qs.length = ps.length →
      validateCommand action qs = validateCommand action ps) := by
  refine ⟨validateCommand_create ps, validateCommand_list_questions ps,
    validateCommand_start ps, ?_, ?_, ?_, ?_, fun action h => validateCommand_unrouted action ps h,
    ?_⟩
  · by_cases h : ps.length < 2
    · simp [validateCommand, commandTriggerCreate, commandTriggerListQuizes,
        commandTriggerListQuestions, commandTriggerAddQuestion, h]
    · simp [validateCommand, commandTriggerCreate, commandTriggerListQuizes,
        commandTriggerListQuestions, commandTriggerAddQuestion, h]
      omega
  · by_cases h : ps.length < 2
    · simp [validateCommand, commandTriggerCreate, commandTriggerListQuizes,
        commandTriggerListQuestions, commandTriggerAddQuestion,
        commandTriggerDeleteQuestion, h]
    · simp [validateCommand, commandTriggerCreate, commandTriggerListQuizes,
        commandTriggerListQuestions, commandTriggerAddQuestion,
        commandTriggerDeleteQuestion, h]
      omega
  · simp [validateCommand, commandTriggerCreate, commandTriggerListQuizes,
      commandTriggerListQuestions, commandTriggerAddQuestion,
      commandTriggerDeleteQuestion, commandTriggerStart]
  · simp [validateCommand, commandTriggerCreate, commandTriggerListQuizes,
      commandTriggerListQuestions, commandTriggerAddQuestion,
      commandTriggerDeleteQuestion, commandTriggerStart]
  · intro action qs h
    simp [validateCommand, h]

/-- C3, as the spec words it: the validator has no rule for the action
spelled `list_quizzes`; one parameter is accepted. -/
theorem validateCommand_list_quizzes_accepts_parameter :
    validateCommand "list_quizzes" ["extra"] = "" ∧ (["extra"] : List String).length > 0 := by
  decide

/-- C3, amended: the zero-parameter rule is attached to the action spelled
`list_quizes` (the value of `commandTriggerListQuizes`): the result is the
empty string for no parameters and the rejection text otherwise. -/
theorem validateCommand_list_quizes (ps : List String) :
    (validateCommand commandTriggerListQuizes ps = "" ↔ ps = []) ∧
    (ps.length > 0 → validateCommand commandTriggerListQuizes ps =
      "List command does not accept any extra parameters") ∧
    commandTriggerListQuizes = "list_quizes" := by
  refine ⟨?_, ?_, rfl⟩
  · cases ps <;> simp [validateCommand, commandTriggerCreate, commandTriggerListQuizes]
  · intro h
    simp [validateCommand, commandTriggerCreate, commandTriggerListQuizes, h]


/-! ## The dispatcher -/

/-- C2: a `/trivia` line whose action is `create`, `list_questions` or `start`
with the wrong number of parameters gets exactly one response, the rejection
text of that action, and nothing else happens: the store is unchanged and the
only call is the post. -/
theorem ExecuteCommand_wrong_arity_rejected (p : Plugin) (args : CommandArgs) (w : World)
    (action : String) (ps : List String)
    (hsplit : Fields args.Command = "/trivia" :: action :: ps)
    (hbad : (action = "create" ∧ ps.length ≠ 2) ∨
      (action = "list_questions" ∧ ps.length ≠ 1) ∨
      (action = "start" ∧ ps.length ≠ 1)) :
    ExecuteCommand p args w =
      (.returned, { store := w.store,
                    trace := w.trace ++ [response p args (validateCommand action ps)] }) ∧
    validateCommand action ps =
      (if action = "create" then
        "Please specify a channel and quiz name (one word, dashes allowed)."
       else if action = "list_questions" then
        "`You need to provide the quiz name (one word, dashes allowed)"
       else "This function requires the quiz name") := by
  have hv : validateCommand action ps ≠ "" := by
    rcases hbad with ⟨rfl, h⟩ | ⟨rfl, h⟩ | ⟨rfl, h⟩
    · exact fun e => h ((validateCommand_create ps).mp e)
    · exact fun e => h ((validateCommand_list_questions ps).mp e)
    · exact fun e => h ((validateCommand_start ps).mp e)
  constructor
  · have hd : (if (ps.length + 1 + 1 > 2) then ps else []) = ps := by
      cases ps <;> simp
    simp only [ExecuteCommand, hsplit, List.length_cons, List.drop_succ_cons, List.drop_zero, hd]
    simp [hv, postCommandResponse_eq, Sprintf_validateCommand]
  · rcases hbad with ⟨rfl, h⟩ | ⟨rfl, h⟩ | ⟨rfl, h⟩ <;>
      simp [validateCommand, commandTriggerCreate, commandTriggerListQuizes,
        commandTriggerListQuestions, commandTriggerAddQuestion,
        commandTriggerDeleteQuestion, commandTriggerStart, h]

/-- Witness for C2: `/trivia create onlyone`. -/
theorem ExecuteCommand_wrong_arity_rejected_witness :
    ExecuteCommand (quietPlugin []) ⟨"/trivia create onlyone", "c", "u"⟩ ⟨[("c", "v")], []⟩ =
      (.returned, { store := [("c", "v")],
                    trace := [response (quietPlugin []) ⟨"/trivia create onlyone", "c", "u"⟩
                      (validateCommand "create" ["onlyone"])] }) ∧
    validateCommand "create" ["onlyone"] =
      "Please specify a channel and quiz name (one word, dashes allowed)." :=
  ExecuteCommand_wrong_arity_rejected (quietPlugin [])
    ⟨"/trivia create onlyone", "c", "u"⟩ ⟨[("c", "v")], []⟩ "create" ["onlyone"]
    (by decide) (by decide)

/-- C6: a `/trivia` line whose action token is non-empty and is none of the
routed actions gets exactly one response, `Unknown action ` followed by the
token; the store is unchanged and the only call is the post. The action
`delete_quiz` is such a token. -/
theorem ExecuteCommand_unknown_action (p : Plugin) (args : CommandArgs) (w : World)
    (action : String) (ps : List String)
    (hsplit : Fields args.Command = "/trivia" :: action :: ps)
    (hne : action ≠ "") (hunrouted : action ∉ routedActions) :
    ExecuteCommand p args w =
      (.returned, { store := w.store,
                    trace := w.trace ++ [response p args ("Unknown action " ++ action)] }) ∧
    Contains ("Unknown action " ++ action) action = true ∧
    commandTriggerDeleteQuiz ∉ routedActions := by
  have hv : ∀ qs, validateCommand action qs = "" := fun qs =>
    validateCommand_unrouted action qs hunrouted
  simp only [routedActions, List.mem_cons, List.mem_singleton, not_or,
    List.not_mem_nil, or_false] at hunrouted
  obtain ⟨h1, h2, h3, h4, h5, h6⟩ := hunrouted
  refine ⟨?_, ?_, by decide⟩
  · simp only [ExecuteCommand, hsplit, List.length_cons, List.drop_succ_cons, List.drop_zero]
    simp [hv, h1, h2, h3, h4, h5, h6, hne, postCommandResponse_eq, Sprintf_unknown_action]
  · simp only [Contains, List.any_eq_true]
    refine ⟨action.data, ?_, ?_⟩
    · rw [List.mem_tails]
      exact List.suffix_append _ _
    · simp

/-- Witness for C6: `/trivia delete_quiz all`. -/
theorem ExecuteCommand_unknown_action_witness :
    ExecuteCommand (quietPlugin []) ⟨"/trivia delete_quiz all", "c", "u"⟩ ⟨[("c", "v")], []⟩ =
      (.returned, { store := [("c", "v")],
                    trace := [response (quietPlugin []) ⟨"/trivia delete_quiz all", "c", "u"⟩
                      "Unknown action delete_quiz"] }) ∧
    Contains "Unknown action delete_quiz" "delete_quiz" = true ∧
    commandTriggerDeleteQuiz ∉ routedActions :=
  ExecuteCommand_unknown_action (quietPlugin [])
    ⟨"/trivia delete_quiz all", "c", "u"⟩ ⟨[("c", "v")], []⟩ "delete_quiz" ["all"]
    (by decide) (by decide) (by decide)

set_option maxRecDepth 200000 in
theorem Sprintf_helpText : Sprintf helpText [] = helpText := by
  decide

set_option maxRecDepth 200000 in
theorem helpText_no_bar : Contains helpText "|" = false := by
  decide

set_option maxRecDepth 200000 in
theorem helpText_lists_registry :
    ∀ c ∈ registry, Contains helpText ("/trivia " ++ c) = true := by
  decide

/-- C7: a line whose only token is `/trivia` gets exactly one response, the
help text: the header followed by `commandHelp` with every `|` replaced by a
backtick, which the format step leaves unchanged and which names every
command of the registry. The store is unchanged and the only call is the
post. Every line made of `/trivia` between two runs of white space is such a
line. -/
theorem ExecuteCommand_help (p : Plugin) (args : CommandArgs) (w : World)
    (hsplit : Fields args.Command = ["/trivia"]) :
    ExecuteCommand p args w =
      (.returned, { store := w.store, trace := w.trace ++ [response p args helpText] }) ∧
    helpText = "###### Trivia Plugin - Slash Command Help\n" ++ ReplaceAll commandHelp "|" "`" ∧
    Sprintf helpText [] = helpText ∧
    Contains helpText "|" = false ∧
    (∀ c ∈ registry, Contains helpText ("/trivia " ++ c) = true) ∧
    (∀ l r : List Char, (∀ c ∈ l, isSpace c = true) → (∀ c ∈ r, isSpace c = true) →
      Fields (String.mk (l ++ ("/trivia".data ++ r))) = ["/trivia"]) := by
  refine ⟨?_, rfl, Sprintf_helpText, helpText_no_bar, helpText_lists_registry,
    Fields_trivia_padded⟩
  simp only [ExecuteCommand, hsplit]
  simp [validateCommand, commandTriggerCreate, commandTriggerListQuizes,
    commandTriggerListQuestions, commandTriggerAddQuestion,
    commandTriggerDeleteQuestion, commandTriggerStart, postCommandResponse_eq,
    Sprintf_helpText]

/-- Witness for C7: the line `/trivia` between blanks. -/
theorem ExecuteCommand_help_witness :
    ExecuteCommand (quietPlugin []) ⟨"  /trivia \n", "c", "u"⟩ ⟨[("c", "v")], []⟩ =
      (.returned, { store := [("c", "v")],
                    trace := [response (quietPlugin []) ⟨"  /trivia \n", "c", "u"⟩ helpText] }) :=
  (ExecuteCommand_help (quietPlugin []) ⟨"  /trivia \n", "c", "u"⟩ ⟨[("c", "v")], []⟩
    (by decide)).1

/-- C4: on the empty line and on a line of blanks `strings.Fields` gives no
token and `ExecuteCommand` panics at `split[0]`, whatever the platform. -/
theorem ExecuteCommand_empty_line_panics (p : Plugin) (channelId userId : String) (w : World) :
    Fields "" = [] ∧ Fields " \t " = [] ∧
    ExecuteCommand p ⟨"", channelId, userId⟩ w =
      (.panicked "index out of range [0] with length 0", w) ∧
    ExecuteCommand p ⟨" \t ", channelId, userId⟩ w =
      (.panicked "index out of range [0] with length 0", w) := by
  have h1 : Fields "" = [] := by decide
  have h2 : Fields " \t " = [] := by decide
  refine ⟨h1, h2, ?_, ?_⟩
  · simp only [ExecuteCommand, h1]
  · simp only [ExecuteCommand, h2]

/-- C5: `/trivia list_questions quiz1` passes validation and is routed to
`executeCommandSetWelcome`; with a channel that is found and is not direct,
the line holds no `set_channel_welcome`, `SplitN` gives one piece and the
handler panics at index 1, after the channel lookup and before any response. -/
theorem ExecuteCommand_list_questions_panics :
    validateCommand "list_questions" ["quiz1"] = "" ∧
    SplitN "/trivia list_questions quiz1" "set_channel_welcome" 2 =
      ["/trivia list_questions quiz1"] ∧
    ExecuteCommand (quietPlugin []) ⟨"/trivia list_questions quiz1", "c", "u"⟩ ⟨[], []⟩ =
      (.panicked "index out of range [1] with length 1",
        { store := [], trace := [.GetChannel "c"] }) := by
  decide

/-! ## The delete handler -/

theorem newEvents_append (w : World) (store : List (String × String)) (es : List Event) :
    newEvents w { store := store, trace := w.trace ++ es } = es := by
  simp [newEvents]

/-- The worlds `executeCommandDeleteWelcome` can leave, by the answers of the
platform. -/
theorem executeCommandDeleteWelcome_cases (p : Plugin) (args : CommandArgs) (w : World) :
    (∃ appErr, p.KVGetErr w.trace args.ChannelId = some appErr ∧
      executeCommandDeleteWelcome p args w =
        { store := w.store,
          trace := w.trace ++ [.KVGet args.ChannelId, response p args (Sprintf
            "error occurred while retrieving the welcome message for the chanel: `%s`"
            [appErr])] }) ∨
    (p.KVGetErr w.trace args.ChannelId = none ∧ storeGet w.store args.ChannelId = none ∧
      executeCommandDeleteWelcome p args w =
        { store := w.store,
          trace := w.trace ++ [.KVGet args.ChannelId,
            response p args "welcome message has not been set yet"] }) ∨
    (∃ v msg st, p.KVGetErr w.trace args.ChannelId = none ∧
      storeGet w.store args.ChannelId = some v ∧
      executeCommandDeleteWelcome p args w =
        { store := st,
          trace := w.trace ++ [.KVGet args.ChannelId, .KVDelete args.ChannelId,
            response p args msg] }) := by
  cases hg : p.KVGetErr w.trace args.ChannelId with
  | some appErr =>
    left
    refine ⟨appErr, rfl, ?_⟩
    simp [executeCommandDeleteWelcome, KVGet, Sprintf_key, hg, postCommandResponse_eq,
      World.log]
  | none =>
    right
    cases hs : storeGet w.store args.ChannelId with
    | none =>
      left
      refine ⟨rfl, rfl, ?_⟩
      have hf : Sprintf "welcome message has not been set yet" [] =
          "welcome message has not been set yet" := by decide
      simp [executeCommandDeleteWelcome, KVGet, Sprintf_key, hg, hs, postCommandResponse_eq,
        World.log, hf]
    | some v =>
      right
      cases hd : p.KVDeleteErr (w.trace ++ [Event.KVGet args.ChannelId]) args.ChannelId with
      | some appErr =>
        refine ⟨v, Sprintf
          "error occurred while deleting the welcome message for the chanel: `%s`" [appErr],
          w.store, rfl, rfl, ?_⟩
        simp only [executeCommandDeleteWelcome, KVGet, KVDelete, Sprintf_key, hg, hs, hd,
          postCommandResponse_eq, World.log, List.append_assoc, List.singleton_append,
          List.cons_append, List.nil_append]
      | none =>
        refine ⟨v, Sprintf "welcome message has been deleted" [],
          storeDelete w.store args.ChannelId, rfl, rfl, ?_⟩
        simp only [executeCommandDeleteWelcome, KVGet, KVDelete, Sprintf_key, hg, hs, hd,
          postCommandResponse_eq, World.log, List.append_assoc, List.singleton_append,
          List.cons_append, List.nil_append]

/-- C8: the delete handler reads before it deletes. Its key is the channel
id. When `KVGet` succeeds with no value it posts exactly `welcome message has
not been set yet`, calls no `KVDelete` and leaves the store as it was. A
`KVDelete` it makes is on that key, follows a `KVGet` on that key that
succeeded with a value, and is its second call. `start x` and
`delete_question x y ...` are routed to this handler. -/
theorem executeCommandDeleteWelcome_read_then_delete (p : Plugin) (args : CommandArgs)
    (w : World) :
    Sprintf "%s%s" [welcomebotChannelWelcomeKey, args.ChannelId] = args.ChannelId ∧
    (p.KVGetErr w.trace args.ChannelId = none → storeGet w.store args.ChannelId = none →
      executeCommandDeleteWelcome p args w =
        { store := w.store,
          trace := w.trace ++ [.KVGet args.ChannelId,
            response p args "welcome message has not been set yet"] }) ∧
    (∀ k, Event.KVDelete k ∈ newEvents w (executeCommandDeleteWelcome p args w) →
      k = args.ChannelId ∧ p.KVGetErr w.trace args.ChannelId = none ∧
      (∃ v, storeGet w.store args.ChannelId = some v) ∧
      (newEvents w (executeCommandDeleteWelcome p args w)).take 2 =
        [.KVGet args.ChannelId, .KVDelete args.ChannelId]) ∧
    (∀ x, Fields args.Command = ["/trivia", "start", x] →
      ExecuteCommand p args w = (.returned, executeCommandDeleteWelcome p args w)) ∧
    (∀ x y ys, Fields args.Command = "/trivia" :: "delete_question" :: x :: y :: ys →
      ExecuteCommand p args w = (.returned, executeCommandDeleteWelcome p args w)) := by
  refine ⟨Sprintf_key _, ?_, ?_, ?_, ?_⟩
  · intro hg hs
    rcases executeCommandDeleteWelcome_cases p args w with
      ⟨e, he, _⟩ | ⟨_, _, h⟩ | ⟨v, _, _, _, hv, _⟩
    · rw [hg] at he; cases he
    · exact h
    · rw [hs] at hv; cases hv
  · intro k hk
    rcases executeCommandDeleteWelcome_cases p args w with
      ⟨e, _, h⟩ | ⟨_, _, h⟩ | ⟨v, msg, st, hg, hv, h⟩
    · rw [h, newEvents_append] at hk
      simp [response] at hk
    · rw [h, newEvents_append] at hk
      simp [response] at hk
    · rw [h, newEvents_append] at hk ⊢
      simp [response] at hk
      exact ⟨hk, hg, ⟨v, hv⟩, rfl⟩
  · intro x hsplit
    simp only [ExecuteCommand, hsplit]
    simp [validateCommand, commandTriggerCreate, commandTriggerListQuizes,
      commandTriggerListQuestions, commandTriggerAddQuestion,
      commandTriggerDeleteQuestion, commandTriggerStart]
  · intro x y ys hsplit
    simp only [ExecuteCommand, hsplit]
    simp [validateCommand, commandTriggerCreate, commandTriggerListQuizes,
      commandTriggerListQuestions, commandTriggerAddQuestion,
      commandTriggerDeleteQuestion, commandTriggerStart]

/-- Witness for C8: `/trivia start quiz1` in a channel with nothing stored,
and in a channel with a stored value. -/
theorem executeCommandDeleteWelcome_read_then_delete_witness :
    ExecuteCommand (quietPlugin []) ⟨"/trivia start quiz1", "c", "u"⟩ ⟨[("d", "v")], []⟩ =
      (.returned, { store := [("d", "v")],
                    trace := [.KVGet "c", response (quietPlugin [])
                      ⟨"/trivia start quiz1", "c", "u"⟩
                      "welcome message has not been set yet"] }) ∧
    ExecuteCommand (quietPlugin []) ⟨"/trivia start quiz1", "d", "u"⟩ ⟨[("d", "v")], []⟩ =
      (.returned, { store := [],
                    trace := [.KVGet "d", .KVDelete "d", response (quietPlugin [])
                      ⟨"/trivia start quiz1", "d", "u"⟩
                      "welcome message has been deleted"] }) := by
  have h := executeCommandDeleteWelcome_read_then_delete (quietPlugin [])
    ⟨"/trivia start quiz1", "c", "u"⟩ ⟨[("d", "v")], []⟩
  refine ⟨?_, by decide⟩
  rw [h.2.2.2.1 "quiz1" (by decide), h.2.1 (by decide) (by decide)]
  rfl

/-! ## The list handler -/

/-- C10: with one configured entry whose team name is `50%`, the list handler
posts one response, and its message is not the header followed by the line of
that name: the text built from the names is passed to `postCommandResponse` as
a format, and the format step turns the final `%` into `%!(NOVERB)`. -/
theorem executeCommandList_percent_name :
    executeCommandList (quietPlugin [⟨"50%"⟩]) ⟨"/trivia list_quizes", "c", "u"⟩ ⟨[], []⟩ =
      { store := [],
        trace := [.getWelcomeMessages,
          response (quietPlugin [⟨"50%"⟩]) ⟨"/trivia list_quizes", "c", "u"⟩
            "Teams for which welcome messages are defined:\n * 50%!(NOVERB)"] } ∧
    "Teams for which welcome messages are defined:\n * 50%!(NOVERB)" ≠
      "Teams for which welcome messages are defined:" ++ "\n * " ++ "50%" := by
  decide

/-! ## The preview handler -/

theorem Sprintf_name (teamName : String) : Sprintf "%s" [teamName] = teamName := by
  have h : sprintfAux "%s".data [teamName] = teamName.data ++ [] := rfl
  simp [Sprintf, h]

theorem Sprintf_not_found (teamName : String) :
    Sprintf "team `%s` has not been found" [teamName] =
      "team `" ++ teamName ++ "` has not been found" := by
  have h : sprintfAux "team `%s` has not been found".data [teamName]
      = "team `".data ++ (teamName.data ++ "` has not been found".data) := rfl
  rw [Sprintf, h]
  apply String.ext
  simp

theorem not_found_ne_name (teamName : String) :
    "team `" ++ teamName ++ "` has not been found" ≠ teamName := by
  intro h
  have hl := congrArg String.length h
  simp only [String.length_append] at hl
  have h1 : "team `".length = 6 := by decide
  omega

theorem previewNames_ok (p : Plugin) (teamName : String) (args : CommandArgs)
    (message : ConfigMessage)
    (hok : ∀ tr m, p.previewWelcomeMessage tr teamName args m = none)
    (names : List String) (found : Bool) (w : World) :
    previewNames p teamName args message names found w =
      (some (found || names.any (fun name => decide (TrimSpace name = teamName))),
        { store := w.store,
          trace := w.trace ++ matchEvents p args teamName message names }) := by
  induction names generalizing found w with
  | nil => simp [previewNames, matchEvents]
  | cons name rest ih =>
    by_cases h : TrimSpace name = teamName
    · simp [previewNames, matchEvents, h, hok, ih, postCommandResponse_eq, World.log,
        Sprintf_name]
    · simp [previewNames, matchEvents, h, ih]

theorem previewMessages_ok (p : Plugin) (teamName : String) (args : CommandArgs)
    (hok : ∀ tr m, p.previewWelcomeMessage tr teamName args m = none)
    (entries : List ConfigMessage) (found : Bool) (w : World) :
    previewMessages p teamName args entries found w =
      (some (found || entries.any (entryMatches teamName)),
        { store := w.store,
          trace := w.trace ++ scanEvents p args teamName entries }) := by
  induction entries generalizing found w with
  | nil => simp [previewMessages, scanEvents]
  | cons message rest ih =>
    simp [previewMessages, scanEvents, previewNames_ok p teamName args message hok, ih,
      entryMatches, Bool.or_assoc]

theorem executeCommandPreview_ok (p : Plugin) (teamName : String) (args : CommandArgs)
    (hok : ∀ tr m, p.previewWelcomeMessage tr teamName args m = none) (w : World) :
    executeCommandPreview p teamName args w =
      { store := w.store,
        trace := w.trace ++ (.getWelcomeMessages ::
          (scanEvents p args teamName p.getWelcomeMessages ++
            (if p.getWelcomeMessages.any (entryMatches teamName) then []
             else [response p args ("team `" ++ teamName ++ "` has not been found")]))) } := by
  simp only [executeCommandPreview, previewMessages_ok p teamName args hok, World.log,
    Bool.false_or]
  by_cases h : p.getWelcomeMessages.any (entryMatches teamName) = true
  · simp [h]
  · simp [h, postCommandResponse_eq, Sprintf_not_found]

theorem processed_matchEvents (p : Plugin) (args : CommandArgs) (teamName : String)
    (message m : ConfigMessage) (names : List String) :
    m ∈ processedEntries (matchEvents p args teamName message names) ↔
      m = message ∧ names.any (fun name => decide (TrimSpace name = teamName)) = true := by
  induction names with
  | nil => simp [matchEvents, processedEntries]
  | cons name rest ih =>
    by_cases h : TrimSpace name = teamName
    · have hc : processedEntries (matchEvents p args teamName message (name :: rest)) =
          message :: processedEntries (matchEvents p args teamName message rest) := by
        simp [matchEvents, processedEntries, h, response, Event.previewed,
          List.filterMap_cons]
      rw [hc, List.mem_cons, ih]
      simp [h]
      intro hm _ _ _
      exact hm
    · have hc : processedEntries (matchEvents p args teamName message (name :: rest)) =
          processedEntries (matchEvents p args teamName message rest) := by
        simp [matchEvents, h]
      rw [hc, ih]
      simp [h]

theorem processed_scanEvents (p : Plugin) (args : CommandArgs) (teamName : String)
    (m : ConfigMessage) (entries : List ConfigMessage) :
    m ∈ processedEntries (scanEvents p args teamName entries) ↔
      m ∈ entries ∧ entryMatches teamName m = true := by
  induction entries with
  | nil => simp [scanEvents, processedEntries]
  | cons message rest ih =>
    have hm := processed_matchEvents p args teamName message m (Split message.TeamName ",")
    simp only [processedEntries] at ih hm
    simp only [scanEvents, processedEntries, List.filterMap_append, List.mem_append, ih, hm,
      List.mem_cons]
    constructor
    · rintro (⟨rfl, h⟩ | ⟨h1, h2⟩)
      · exact ⟨Or.inl rfl, h⟩
      · exact ⟨Or.inr h1, h2⟩
    · rintro ⟨rfl | h1, h2⟩
      · exact Or.inl ⟨rfl, h2⟩
      · exact Or.inr ⟨h1, h2⟩

theorem responses_matchEvents (p : Plugin) (args : CommandArgs) (teamName : String)
    (message : ConfigMessage) (names : List String) :
    ∀ r ∈ responses (matchEvents p args teamName message names), r = teamName := by
  induction names with
  | nil => simp [matchEvents, responses]
  | cons name rest ih =>
    simp only [responses] at ih
    by_cases h : TrimSpace name = teamName
    · simpa [matchEvents, responses, h, response, Event.message, List.filterMap_cons] using ih
    · simpa [matchEvents, responses, h] using ih

theorem responses_scanEvents (p : Plugin) (args : CommandArgs) (teamName : String)
    (entries : List ConfigMessage) :
    ∀ r ∈ responses (scanEvents p args teamName entries), r = teamName := by
  induction entries with
  | nil => simp [scanEvents, responses]
  | cons message rest ih =>
    have hm := responses_matchEvents p args teamName message (Split message.TeamName ",")
    simp only [responses] at ih hm
    intro r hr
    simp only [scanEvents, responses, List.filterMap_append, List.mem_append] at hr
    rcases hr with hr | hr
    · exact hm r hr
    · exact ih r hr

/-! ### Splitting on commas and trimming, against the written form -/

theorem genSplit_comma_free (x : List Char) (hx : ',' ∉ x) (cuts : Nat)
    (cur rest : List Char) :
    genSplit [','] cuts 0 cur (x ++ rest) = genSplit [','] cuts 0 (x.reverse ++ cur) rest := by
  induction x generalizing cur with
  | nil => rfl
  | cons c cs ih =>
    have hc : ',' ≠ c := fun h => hx (h ▸ List.mem_cons_self _ _)
    have hcs : ',' ∉ cs := fun h => hx (List.mem_cons_of_mem _ h)
    have hstep : genSplit [','] cuts 0 cur (c :: (cs ++ rest)) =
        genSplit [','] cuts 0 (c :: cur) (cs ++ rest) := by
      cases cuts with
      | zero => simp [genSplit]
      | succ n => simp [genSplit, List.isPrefixOf, hc]
    rw [List.cons_append, hstep, ih hcs]
    simp

theorem genSplit_joinComma (xs : List (List Char)) :
    ∀ (x cur : List Char) (cuts : Nat), ',' ∉ x → (∀ y ∈ xs, ',' ∉ y) → xs.length ≤ cuts →
      genSplit [','] cuts 0 cur (joinComma (x :: xs)) =
        String.mk (cur.reverse ++ x) :: xs.map String.mk := by
  induction xs with
  | nil =>
    intro x cur cuts hx _ _
    have h := genSplit_comma_free x hx cuts cur []
    rw [List.append_nil] at h
    simp [joinComma, h, genSplit]
  | cons y ys ih =>
    intro x cur cuts hx hys hlen
    have hy : ',' ∉ y := hys y (List.mem_cons_self _ _)
    have hrest : ∀ z ∈ ys, ',' ∉ z := fun z hz => hys z (List.mem_cons_of_mem _ hz)
    cases cuts with
    | zero => simp at hlen
    | succ n =>
      have hn : ys.length ≤ n := by
        simp only [List.length_cons] at hlen
        omega
      have h := genSplit_comma_free x hx (n + 1) cur (',' :: joinComma (y :: ys))
      have hcut : genSplit [','] (n + 1) 0 (x.reverse ++ cur) (',' :: joinComma (y :: ys)) =
          String.mk (x.reverse ++ cur).reverse :: genSplit [','] n 0 [] (joinComma (y :: ys)) := by
        simp [genSplit, List.isPrefixOf]
      rw [joinComma, h, hcut, ih y [] n hy hrest hn]
      simp

theorem joinComma_length (xs : List (List Char)) (x : List Char) :
    xs.length ≤ (joinComma (x :: xs)).length := by
  induction xs generalizing x with
  | nil => simp
  | cons y ys ih =>
    have h := ih y
    simp only [joinComma, List.length_append, List.length_cons] at h ⊢
    omega

/-- Splitting on commas gives back the comma-free pieces a text is written
from. -/
theorem Split_joinComma (x : List Char) (xs : List (List Char))
    (hall : ∀ y ∈ x :: xs, ',' ∉ y) :
    Split (String.mk (joinComma (x :: xs))) "," = (x :: xs).map String.mk := by
  have hx : ',' ∉ x := hall x (List.mem_cons_self _ _)
  have hxs : ∀ y ∈ xs, ',' ∉ y := fun y hy => hall y (List.mem_cons_of_mem _ hy)
  have hsep : (",".data.isEmpty) = false := rfl
  have hdata : ",".data = [','] := rfl
  simp only [Split, hsep, Bool.false_eq_true, if_false, hdata]
  rw [genSplit_joinComma xs x [] _ hx hxs (joinComma_length xs x)]
  simp

theorem dropWhile_all_append (l r : List Char) (hl : ∀ c ∈ l, isSpace c = true) :
    (l ++ r).dropWhile isSpace = r.dropWhile isSpace := by
  induction l with
  | nil => rfl
  | cons c cs ih =>
    have hc : isSpace c = true := hl c (List.mem_cons_self _ _)
    have hcs : ∀ d ∈ cs, isSpace d = true := fun d hd => hl d (List.mem_cons_of_mem _ hd)
    simp [List.dropWhile, hc, ih hcs]

theorem dropWhile_head (l : List Char) (hl : ∀ c, l.head? = some c → isSpace c = false) :
    l.dropWhile isSpace = l := by
  cases l with
  | nil => rfl
  | cons c cs =>
    have hc : isSpace c = false := hl c rfl
    simp [List.dropWhile, hc]

/-- Trimming a well-formed part leaves its name. -/
theorem TrimSpace_part (x : NamePart) (hx : x.wellFormed) :
    TrimSpace (String.mk x.text) = String.mk x.name := by
  obtain ⟨hb, ha, _, hh, hl⟩ := hx
  have hrev : ∀ c ∈ x.after.reverse, isSpace c = true :=
    fun c hc => ha c (List.mem_reverse.mp hc)
  simp only [TrimSpace, NamePart.text]
  rw [dropWhile_all_append _ _ hb]
  cases hn : x.name with
  | nil =>
    have h1 := dropWhile_all_append x.after [] ha
    rw [List.append_nil] at h1
    simp [h1]
  | cons c cs =>
    rw [← hn]
    have h1 : (x.name ++ x.after).dropWhile isSpace = x.name ++ x.after := by
      apply dropWhile_head
      intro d hd
      rw [hn] at hd
      exact hh d (by rw [hn]; exact hd)
    rw [h1, List.reverse_append, dropWhile_all_append _ _ hrev]
    have h2 : x.name.reverse.dropWhile isSpace = x.name.reverse := by
      apply dropWhile_head
      intro d hd
      rw [List.head?_reverse] at hd
      exact hl d hd
    rw [h2, List.reverse_reverse]

theorem comma_not_in_part (x : NamePart) (hx : x.wellFormed) : ',' ∉ x.text := by
  obtain ⟨hb, ha, hn, _, _⟩ := hx
  have hcomma : isSpace ',' = false := by decide
  intro h
  simp only [NamePart.text, List.mem_append] at h
  rcases h with h | h | h
  · have := hb _ h
    rw [hcomma] at this
    cases this
  · exact hn h
  · have := ha _ h
    rw [hcomma] at this
    cases this

/-- The parts of a written `TeamName`, split on commas and trimmed, are its
names. -/
theorem Split_TrimSpace_teamNameOf (parts : List NamePart) (hne : parts ≠ [])
    (hwf : ∀ x ∈ parts, x.wellFormed) :
    (Split (teamNameOf parts) ",").map TrimSpace =
      parts.map (fun x => String.mk x.name) := by
  cases parts with
  | nil => exact absurd rfl hne
  | cons x xs =>
    have hall : ∀ y ∈ (x :: xs).map NamePart.text, ',' ∉ y := by
      intro y hy
      obtain ⟨z, hz, rfl⟩ := List.mem_map.mp hy
      exact comma_not_in_part z (hwf z hz)
    rw [teamNameOf, List.map_cons] at *
    rw [Split_joinComma _ _ hall, ← List.map_cons, List.map_map, List.map_map]
    apply List.map_congr_left
    intro z hz
    exact TrimSpace_part z (hwf z hz)

theorem head_dropWhile_not_space (l : List Char) (c : Char)
    (h : (l.dropWhile isSpace).head? = some c) : isSpace c = false := by
  have h1 := List.head?_dropWhile_not isSpace l
  rw [h] at h1
  exact h1

theorem getLast_dropWhile (l : List Char) (c : Char)
    (h : (l.dropWhile isSpace).getLast? = some c) : l.getLast? = some c := by
  obtain ⟨t, ht⟩ := List.dropWhile_suffix (l := l) isSpace
  have hne : l.dropWhile isSpace ≠ [] := by
    intro h0
    rw [h0] at h
    cases h
  obtain ⟨d, ds, hd⟩ := List.exists_cons_of_ne_nil hne
  rw [← ht, List.getLast?_append, h]
  rfl

/-- Every text is written from comma-free pieces. -/
theorem exists_joinComma (l : List Char) :
    ∃ x xs, (∀ y ∈ x :: xs, ',' ∉ y) ∧ l = joinComma (x :: xs) := by
  induction l with
  | nil => exact ⟨[], [], by simp, rfl⟩
  | cons c cs ih =>
    obtain ⟨x, xs, hall, hcs⟩ := ih
    by_cases hc : c = ','
    · refine ⟨[], x :: xs, ?_, ?_⟩
      · intro y hy
        rcases List.mem_cons.mp hy with rfl | hy
        · simp
        · exact hall y hy
      · rw [hc, hcs]
        rfl
    · refine ⟨c :: x, xs, ?_, ?_⟩
      · intro y hy
        rcases List.mem_cons.mp hy with rfl | hy
        · intro hmem
          rcases List.mem_cons.mp hmem with h | h
          · exact hc h.symm
          · exact hall x (List.mem_cons_self _ _) h
        · exact hall y (List.mem_cons_of_mem _ hy)
      · rw [hcs]
        cases xs <;> rfl

/-- Every comma-free piece is the text of a well-formed part. -/
theorem exists_part (y : List Char) (hy : ',' ∉ y) :
    ∃ x : NamePart, x.wellFormed ∧ x.text = y := by
  refine ⟨{ before := y.takeWhile isSpace,
            name := ((y.dropWhile isSpace).reverse.dropWhile isSpace).reverse,
            after := ((y.dropWhile isSpace).reverse.takeWhile isSpace).reverse }, ?_, ?_⟩
  · refine ⟨fun c hc => List.mem_takeWhile_imp hc, ?_, ?_, ?_, ?_⟩
    · intro c hc
      exact List.mem_takeWhile_imp (List.mem_reverse.mp hc)
    · intro h
      have h1 := (List.dropWhile_sublist isSpace).subset (List.mem_reverse.mp h)
      have h2 := (List.dropWhile_sublist isSpace).subset (List.mem_reverse.mp h1)
      exact hy h2
    · intro c hc
      simp only [List.head?_reverse] at hc
      have h1 := getLast_dropWhile _ c hc
      rw [List.getLast?_reverse] at h1
      exact head_dropWhile_not_space y c h1
    · intro c hc
      simp only [List.getLast?_reverse] at hc
      exact head_dropWhile_not_space _ c hc
  · simp only [NamePart.text]
    rw [← List.reverse_append, List.takeWhile_append_dropWhile, List.reverse_reverse,
      List.takeWhile_append_dropWhile]

theorem exists_parts_of_pieces (xs : List (List Char)) (hall : ∀ y ∈ xs, ',' ∉ y) :
    ∃ parts : List NamePart, (∀ x ∈ parts, x.wellFormed) ∧ parts.map NamePart.text = xs := by
  induction xs with
  | nil => exact ⟨[], by simp, rfl⟩
  | cons y ys ih =>
    obtain ⟨parts, hwf, hmap⟩ := ih (fun z hz => hall z (List.mem_cons_of_mem _ hz))
    obtain ⟨x, hx, htext⟩ := exists_part y (hall y (List.mem_cons_self _ _))
    refine ⟨x :: parts, ?_, by rw [List.map_cons, htext, hmap]⟩
    intro z hz
    rcases List.mem_cons.mp hz with rfl | hz
    · exact hx
    · exact hwf z hz

/-- Every `TeamName` is written from well-formed parts. -/
theorem exists_teamNameOf (name : String) :
    ∃ parts : List NamePart, parts ≠ [] ∧ (∀ x ∈ parts, x.wellFormed) ∧
      name = teamNameOf parts := by
  obtain ⟨x, xs, hall, hjoin⟩ := exists_joinComma name.data
  obtain ⟨parts, hwf, hmap⟩ := exists_parts_of_pieces (x :: xs) hall
  refine ⟨parts, ?_, hwf, ?_⟩
  · intro h
    rw [h] at hmap
    cases hmap
  · rw [teamNameOf, hmap, ← hjoin]

theorem entryMatches_iff_mem (teamName : String) (message : ConfigMessage) :
    entryMatches teamName message = true ↔
      teamName ∈ (Split message.TeamName ",").map TrimSpace := by
  simp only [entryMatches, List.any_eq_true, decide_eq_true_eq, List.mem_map]

theorem entryMatches_iff_count (teamName : String) (message : ConfigMessage) :
    entryMatches teamName message = true ↔ 0 < matchCount teamName message := by
  rw [entryMatches_iff_mem, matchCount, List.length_pos_iff_exists_mem]
  constructor
  · intro h
    exact ⟨teamName, List.mem_filter.mpr ⟨h, by simp⟩⟩
  · rintro ⟨n, hn⟩
    obtain ⟨h1, h2⟩ := List.mem_filter.mp hn
    simp only [decide_eq_true_eq] at h2
    rw [← h2]
    exact h1

theorem processedEntries_matchEvents (p : Plugin) (args : CommandArgs) (teamName : String)
    (message : ConfigMessage) (names : List String) :
    processedEntries (matchEvents p args teamName message names) =
      List.replicate (((names.map TrimSpace).filter
        (fun name => decide (name = teamName))).length) message := by
  induction names with
  | nil => rfl
  | cons name rest ih =>
    by_cases h : TrimSpace name = teamName
    · have hc : processedEntries (matchEvents p args teamName message (name :: rest)) =
          message :: processedEntries (matchEvents p args teamName message rest) := by
        simp [matchEvents, processedEntries, h, response, Event.previewed,
          List.filterMap_cons]
      rw [hc, ih]
      simp [h, List.replicate_succ]
    · have hc : processedEntries (matchEvents p args teamName message (name :: rest)) =
          processedEntries (matchEvents p args teamName message rest) := by
        simp [matchEvents, h]
      rw [hc, ih]
      simp [h]

theorem responses_of_matchEvents (p : Plugin) (args : CommandArgs) (teamName : String)
    (message : ConfigMessage) (names : List String) :
    responses (matchEvents p args teamName message names) =
      List.replicate (((names.map TrimSpace).filter
        (fun name => decide (name = teamName))).length) teamName := by
  induction names with
  | nil => rfl
  | cons name rest ih =>
    by_cases h : TrimSpace name = teamName
    · have hc : responses (matchEvents p args teamName message (name :: rest)) =
          teamName :: responses (matchEvents p args teamName message rest) := by
        simp [matchEvents, responses, h, response, Event.message, List.filterMap_cons]
      rw [hc, ih]
      simp [h, List.replicate_succ]
    · have hc : responses (matchEvents p args teamName message (name :: rest)) =
          responses (matchEvents p args teamName message rest) := by
        simp [matchEvents, h]
      rw [hc, ih]
      simp [h]

theorem processedEntries_scanEvents (p : Plugin) (args : CommandArgs) (teamName : String)
    (entries : List ConfigMessage) :
    processedEntries (scanEvents p args teamName entries) =
      expectedProcessed teamName entries := by
  induction entries with
  | nil => rfl
  | cons message rest ih =>
    have hm := processedEntries_matchEvents p args teamName message (Split message.TeamName ",")
    simp only [processedEntries] at ih hm
    simp only [scanEvents, processedEntries, List.filterMap_append, ih, hm, expectedProcessed,
      matchCount]

theorem responses_of_scanEvents (p : Plugin) (args : CommandArgs) (teamName : String)
    (entries : List ConfigMessage) :
    responses (scanEvents p args teamName entries) =
      List.replicate (totalMatches teamName entries) teamName := by
  induction entries with
  | nil => rfl
  | cons message rest ih =>
    have hm := responses_of_matchEvents p args teamName message (Split message.TeamName ",")
    simp only [responses] at ih hm
    simp only [scanEvents, responses, List.filterMap_append, ih, hm, totalMatches,
      matchCount, List.replicate_add]

/-- C9: when no rendering fails, `executeCommandPreview` processes an entry
exactly when one of the comma-separated, trimmed parts of its `TeamName`
equals the target: every matching configured entry is processed, once for
each matching part and in the order of the entries, and nothing else is. The
not-found response is posted exactly when no entry matches, the other
responses are the target name, one for each processing, and the store is
unchanged. The parts are read as the claim words them: every `TeamName` is
written from well-formed parts (a name without comma and without white space
at its ends, between two runs of white space) joined by commas, and on a
name written so the split and trimmed parts are the names, so the entry
matches exactly when one of its names is the target. On the two entries
`teamA,teamB` and `teamC`, the target `teamB` gives one response and one
processing, of the first entry, and `teamZ` gives the not-found response
only; on entries with padded names, several commas and repetitions, every
matching part is processed. -/
theorem executeCommandPreview_matching (p : Plugin) (teamName : String)
    (args : CommandArgs) (w : World)
    (hok : ∀ tr m, p.previewWelcomeMessage tr teamName args m = none) :
    (executeCommandPreview p teamName args w).store = w.store ∧
    (∀ m, m ∈ processedEntries (newEvents w (executeCommandPreview p teamName args w)) ↔
      m ∈ p.getWelcomeMessages ∧ entryMatches teamName m = true) ∧
    (("team `" ++ teamName ++ "` has not been found") ∈
        responses (newEvents w (executeCommandPreview p teamName args w)) ↔
      ∀ m ∈ p.getWelcomeMessages, entryMatches teamName m = false) ∧
    (∀ r ∈ responses (newEvents w (executeCommandPreview p teamName args w)),
      r = teamName ∨ r = "team `" ++ teamName ++ "` has not been found") ∧
    newEvents ⟨[], []⟩ (executeCommandPreview (quietPlugin scenarioEntries) "teamB"
        ⟨"/trivia create teamB x", "c", "u"⟩ ⟨[], []⟩) =
      [.getWelcomeMessages,
       response (quietPlugin scenarioEntries) ⟨"/trivia create teamB x", "c", "u"⟩ "teamB",
       .previewWelcomeMessage "teamB" { TeamName := "teamA,teamB" }] ∧
    newEvents ⟨[], []⟩ (executeCommandPreview (quietPlugin scenarioEntries) "teamZ"
        ⟨"/trivia create teamZ x", "c", "u"⟩ ⟨[], []⟩) =
      [.getWelcomeMessages,
       response (quietPlugin scenarioEntries) ⟨"/trivia create teamZ x", "c", "u"⟩
         "team `teamZ` has not been found"] ∧
    processedEntries (newEvents w (executeCommandPreview p teamName args w)) =
      expectedProcessed teamName p.getWelcomeMessages ∧
    responses (newEvents w (executeCommandPreview p teamName args w)) =
      List.replicate (totalMatches teamName p.getWelcomeMessages) teamName ++
        (if p.getWelcomeMessages.any (entryMatches teamName) then []
         else ["team `" ++ teamName ++ "` has not been found"]) ∧
    (∀ m, entryMatches teamName m = true ↔ 0 < matchCount teamName m) ∧
    (∀ parts : List NamePart, parts ≠ [] → (∀ x ∈ parts, x.wellFormed) →
      (Split (teamNameOf parts) ",").map TrimSpace = parts.map (fun x => String.mk x.name) ∧
      (entryMatches teamName { TeamName := teamNameOf parts } = true ↔
        ∃ x ∈ parts, String.mk x.name = teamName) ∧
      matchCount teamName { TeamName := teamNameOf parts } =
        (parts.filter (fun x => decide (String.mk x.name = teamName))).length) ∧
    (∀ m : ConfigMessage, ∃ parts : List NamePart, parts ≠ [] ∧
      (∀ x ∈ parts, x.wellFormed) ∧ m.TeamName = teamNameOf parts) ∧
    newEvents ⟨[], []⟩ (executeCommandPreview (quietPlugin paddedEntries) "teamC"
        ⟨"/trivia create teamC x", "c", "u"⟩ ⟨[], []⟩) =
      [.getWelcomeMessages,
       response (quietPlugin paddedEntries) ⟨"/trivia create teamC x", "c", "u"⟩ "teamC",
       .previewWelcomeMessage "teamC" { TeamName := " teamA ,\tteamB , teamC" },
       response (quietPlugin paddedEntries) ⟨"/trivia create teamC x", "c", "u"⟩ "teamC",
       .previewWelcomeMessage "teamC" { TeamName := "teamC,teamA, teamC " },
       response (quietPlugin paddedEntries) ⟨"/trivia create teamC x", "c", "u"⟩ "teamC",
       .previewWelcomeMessage "teamC" { TeamName := "teamC,teamA, teamC " }] ∧
    newEvents ⟨[], []⟩ (executeCommandPreview (quietPlugin paddedEntries) "teamD"
        ⟨"/trivia create teamD x", "c", "u"⟩ ⟨[], []⟩) =
      [.getWelcomeMessages,
       response (quietPlugin paddedEntries) ⟨"/trivia create teamD x", "c", "u"⟩ "teamD",
       .previewWelcomeMessage "teamD" { TeamName := "teamD" },
       response (quietPlugin paddedEntries) ⟨"/trivia create teamD x", "c", "u"⟩ "teamD",
       .previewWelcomeMessage "teamD" { TeamName := "teamD" }] ∧
    newEvents ⟨[], []⟩ (executeCommandPreview (quietPlugin paddedEntries) "teamB "
        ⟨"/trivia create x y", "c", "u"⟩ ⟨[], []⟩) =
      [.getWelcomeMessages,
       response (quietPlugin paddedEntries) ⟨"/trivia create x y", "c", "u"⟩
         "team `teamB ` has not been found"] := by
  have hsc := processed_scanEvents p args teamName
  have hrs := responses_scanEvents p args teamName p.getWelcomeMessages
  have hpe := processedEntries_scanEvents p args teamName p.getWelcomeMessages
  have hre := responses_of_scanEvents p args teamName p.getWelcomeMessages
  simp only [processedEntries] at hsc hpe
  simp only [responses] at hrs hre
  rw [executeCommandPreview_ok p teamName args hok w, newEvents_append]
  refine ⟨rfl, ?_, ?_, ?_, by decide, by decide, ?_, ?_, entryMatches_iff_count teamName, ?_,
    fun m => exists_teamNameOf m.TeamName, by decide, by decide, by decide⟩
  · intro m
    by_cases h : p.getWelcomeMessages.any (entryMatches teamName) = true
    · simp [processedEntries, h, Event.previewed, List.filterMap_cons, hsc]
    · simp [processedEntries, h, Event.previewed, List.filterMap_cons, hsc, response]
  · by_cases h : p.getWelcomeMessages.any (entryMatches teamName) = true
    · have hn : ¬ ∀ m ∈ p.getWelcomeMessages, entryMatches teamName m = false := by
        intro hall
        obtain ⟨m, hm, hmt⟩ := List.any_eq_true.mp h
        rw [hall m hm] at hmt
        cases hmt
      simp only [responses, h, if_true, List.append_nil, List.filterMap_cons, Event.message]
      constructor
      · intro hmem
        exact absurd (hrs _ hmem) (not_found_ne_name teamName)
      · intro hall
        exact absurd hall hn
    · have hall : ∀ m ∈ p.getWelcomeMessages, entryMatches teamName m = false := by
        intro m hm
        cases hmt : entryMatches teamName m with
        | false => rfl
        | true => exact absurd (List.any_eq_true.mpr ⟨m, hm, hmt⟩) h
      simp only [responses, h, List.filterMap_cons, Event.message, List.filterMap_append]
      constructor
      · intro _
        exact hall
      · intro _
        simp [response, Event.message]
  · intro r hr
    simp only [responses, List.filterMap_cons, Event.message, List.filterMap_append,
      List.mem_append] at hr
    rcases hr with hr | hr
    · exact Or.inl (hrs r hr)
    · by_cases h : p.getWelcomeMessages.any (entryMatches teamName) = true
      · simp [h] at hr
      · simp [h, response, Event.message] at hr
        exact Or.inr hr
  · by_cases h : p.getWelcomeMessages.any (entryMatches teamName) = true
    · simp [processedEntries, h, Event.previewed, List.filterMap_cons, hpe]
    · simp [processedEntries, h, Event.previewed, List.filterMap_cons, hpe, response]
  · by_cases h : p.getWelcomeMessages.any (entryMatches teamName) = true
    · simp [responses, h, Event.message, List.filterMap_cons, hre]
    · simp [responses, h, Event.message, List.filterMap_cons, hre, response]
  · intro parts hne hwf
    have hst := Split_TrimSpace_teamNameOf parts hne hwf
    refine ⟨hst, ?_, ?_⟩
    · rw [entryMatches_iff_mem, hst, List.mem_map]
    · rw [matchCount, hst, List.filter_map, List.length_map]
      rfl

/-- Witness for C9: the padded entries with the target `teamC`: the first
entry is processed once and the third twice. -/
theorem executeCommandPreview_matching_witness :
    processedEntries (newEvents ⟨[], []⟩ (executeCommandPreview
        (quietPlugin paddedEntries) "teamC" ⟨"/trivia create teamC x", "c", "u"⟩ ⟨[], []⟩)) =
      expectedProcessed "teamC" paddedEntries ∧
    expectedProcessed "teamC" paddedEntries =
      [{ TeamName := " teamA ,\tteamB , teamC" }, { TeamName := "teamC,teamA, teamC " },
       { TeamName := "teamC,teamA, teamC " }] ∧
    entryMatches "teamB" { TeamName := " teamA ,\tteamB , teamC" } = true ∧
    entryMatches "teamB" { TeamName := "teamD" } = false :=
  ⟨(executeCommandPreview_matching (quietPlugin paddedEntries) "teamC"
      ⟨"/trivia create teamC x", "c", "u"⟩ ⟨[], []⟩ (fun _ _ => rfl)).2.2.2.2.2.2.1,
    by decide, by decide, by decide⟩

/-! ## Further properties of the tokenizer and the dispatcher -/

theorem fieldsAux_ne_empty (cs cur : List Char) :
    ∀ t ∈ fieldsAux cur cs, t ≠ "" := by
  induction cs generalizing cur with
  | nil =>
    intro t ht
    cases cur with
    | nil => simp [fieldsAux] at ht
    | cons c rest =>
      simp only [fieldsAux, List.isEmpty_cons, Bool.false_eq_true, if_false,
        List.mem_singleton] at ht
      rw [ht]
      intro h
      have hl := congrArg String.length h
      simp [String.length] at hl
  | cons c cs ih =>
    intro t ht
    by_cases hc : isSpace c = true
    · cases cur with
      | nil =>
        simp only [fieldsAux, hc, if_true, List.isEmpty_nil] at ht
        exact ih [] t ht
      | cons d rest =>
        simp only [fieldsAux, hc, if_true, List.isEmpty_cons, Bool.false_eq_true, if_false,
          List.mem_cons] at ht
        rcases ht with ht | ht
        · rw [ht]
          intro h
          have hl := congrArg String.length h
          simp [String.length] at hl
        · exact ih [] t ht
    · simp only [fieldsAux, hc, Bool.false_eq_true, if_false] at ht
      exact ih (c :: cur) t ht

/-- Every token `strings.Fields` gives is non-empty. -/
theorem Fields_tokens_ne_empty (s : String) : ∀ t ∈ Fields s, t ≠ "" :=
  fieldsAux_ne_empty s.data []

/-- A line whose first token is not `/trivia` is not answered: `ExecuteCommand`
returns with the world as it was. -/
theorem ExecuteCommand_other_command_silent (p : Plugin) (args : CommandArgs) (w : World)
    (command : String) (rest : List String)
    (hsplit : Fields args.Command = command :: rest) (hcmd : command ≠ "/trivia") :
    ExecuteCommand p args w = (.returned, w) := by
  simp only [ExecuteCommand, hsplit]
  simp [hcmd]

/-- Witness: the line `/welcomebot list`. -/
theorem ExecuteCommand_other_command_silent_witness :
    ExecuteCommand (quietPlugin []) ⟨"/welcomebot list", "c", "u"⟩ ⟨[("c", "v")], []⟩ =
      (.returned, ⟨[("c", "v")], []⟩) :=
  ExecuteCommand_other_command_silent (quietPlugin []) ⟨"/welcomebot list", "c", "u"⟩
    ⟨[("c", "v")], []⟩ "/welcomebot" ["list"] (by decide) (by decide)

/-- A line with at least one token whose action is not `list_questions` makes
`ExecuteCommand` return normally, whatever the platform answers: the read of
`parameters[0]` on the `create` route follows a validation that leaves two
parameters. -/
theorem ExecuteCommand_returns (p : Plugin) (args : CommandArgs) (w : World)
    (command : String) (rest : List String)
    (hsplit : Fields args.Command = command :: rest)
    (haction : rest.head? ≠ some "list_questions") :
    (ExecuteCommand p args w).1 = .returned := by
  cases rest with
  | nil =>
    simp only [ExecuteCommand, hsplit]
    by_cases hcmd : command = "/trivia"
    · simp [hcmd, validateCommand, commandTriggerCreate, commandTriggerListQuizes,
        commandTriggerListQuestions, commandTriggerAddQuestion,
        commandTriggerDeleteQuestion, commandTriggerStart]
    · simp [hcmd]
  | cons action ps =>
    have hlq : action ≠ commandTriggerListQuestions := by
      intro h
      apply haction
      rw [h]
      rfl
    have hd : (if (ps.length + 1 + 1 > 2) then ps else []) = ps := by
      cases ps <;> simp
    simp only [ExecuteCommand, hsplit, List.length_cons, List.drop_succ_cons, List.drop_zero,
      hd]
    by_cases hcmd : command = "/trivia"
    · by_cases hv : validateCommand action ps = ""
      · by_cases hcr : action = commandTriggerCreate
        · have h2 : ps.length = 2 := by
            rw [hcr] at hv
            exact (validateCommand_create ps).mp hv
          match ps, h2 with
          | [a, b], _ => simp [hcmd, hcr, validateCommand, commandTriggerCreate]
        · simp only [hcmd, hv, hcr, hlq]
          simp
          split_ifs <;> rfl
      · simp [hcmd, hv]
    · simp [hcmd]

/-- Witness: `/trivia create teamB x` on the scenario entries. -/
theorem ExecuteCommand_returns_witness :
    (ExecuteCommand (quietPlugin scenarioEntries) ⟨"/trivia create teamB x", "c", "u"⟩
      ⟨[], []⟩).1 = .returned :=
  ExecuteCommand_returns (quietPlugin scenarioEntries) ⟨"/trivia create teamB x", "c", "u"⟩
    ⟨[], []⟩ "/trivia" ["create", "teamB", "x"] (by decide) (by decide)

end Trivia
